import Mathlib

/-!
Verification of the functime forecast-evaluation engine specification.

The visible artifact of the repository is a tutorial notebook
(docs/notebooks/evaluation.ipynb) that only calls into the evaluation
engine (`rank_point_forecasts`, `rank_residuals`, FVA and comet analysis);
the implementation of the engine is not part of the visible sources. All
definitions below are therefore modelled from the description the specification itself gives of the engine (spec sections 3, 4 and 7), with exact rational
arithmetic in place of machine floats.
-/

namespace Functime

/-- Modelled from the spec: a series identifier is an opaque key
distinguishing one time series among many in a panel (spec section 3). -/
abbrev SeriesId := String

/-- Modelled from the spec: an Observation is (series identifier,
timestamp, numeric value) (spec section 3). Values are exact rationals in
place of floats. -/
structure Obs where
  sid : SeriesId
  ts : Nat
  value : ℚ
deriving DecidableEq

/-- Modelled from the spec: a Panel is a collection of Observations
sharing a schema (spec section 3). -/
abbrev Panel := List Obs

/-- List of keys with duplicates removed, keeping the first occurrence of
each key (the "insertion order of first appearance" of the spec). -/
def firstDedup : List SeriesId → List SeriesId
  | [] => []
  | s :: rest => s :: firstDedup (rest.filter (fun x => x ≠ s))
termination_by l => l.length
decreasing_by
  simp only [List.length_cons]
  exact Nat.lt_succ_of_le (List.length_filter_le _ _)

/-- Modelled from the spec: the series identifiers present in a panel,
in first-appearance order. -/
def seriesIds (p : Panel) : List SeriesId :=
  firstDedup (p.map (·.sid))

/-- Modelled from the spec: the value a panel holds for a given series at
a given timestamp, when present (first matching observation). -/
def valueAt : Panel → SeriesId → Nat → Option ℚ
  | [], _, _ => none
  | o :: p, sid, ts =>
    if o.sid = sid ∧ o.ts = ts then some o.value else valueAt p sid ts

/-- Modelled from the spec: per-series aligned pairs — the sequence of
(actual, predicted) value pairs restricted to timestamps present in both
panels, in predicted-panel order (spec sections 3 and 4.1, missing
PanelAligner component). -/
def alignSeries (actual : Panel) : Panel → SeriesId → List (ℚ × ℚ)
  | [], _ => []
  | o :: pred, sid =>
    if o.sid = sid then
      match valueAt actual sid o.ts with
      | some a => (a, o.value) :: alignSeries actual pred sid
      | none => alignSeries actual pred sid
    else alignSeries actual pred sid

/-- Modelled from the spec: the aligned pairs of one series, `none` when
the timestamp intersection is empty (such a series is dropped,
spec section 4.1). -/
def alignPairs (actual pred : Panel) (sid : SeriesId) : Option (List (ℚ × ℚ)) :=
  match alignSeries actual pred sid with
  | [] => none
  | q :: rest => some (q :: rest)

/-- Association list built by keeping, for each key of `l`, the value the
partial function `g` assigns to it. -/
def keyed {β : Type} (g : SeriesId → Option β) (l : List SeriesId) :
    List (SeriesId × β) :=
  l.filterMap (fun s => (g s).map (fun b => (s, b)))

/-- First value associated to a key in an association list. -/
def findVal {β : Type} : List (SeriesId × β) → SeriesId → Option β
  | [], _ => none
  | x :: l, k => if x.1 = k then some x.2 else findVal l k

/-- Modelled from the spec: `align(actual_panel, predicted_panel)` — for
each series present in the predicted panel, intersect timestamps with the
actual panel; series with zero intersecting timestamps are silently
dropped unless every series is dropped, in which case the call fails with
an "empty alignment" condition (spec sections 4.1 and 7, missing
PanelAligner component). -/
def align (actual pred : Panel) :
    Except String (List (SeriesId × List (ℚ × ℚ))) :=
  match keyed (alignPairs actual pred) (seriesIds pred) with
  | [] => Except.error "empty alignment"
  | r :: rest => Except.ok (r :: rest)

/-- Absolute value of a rational, written so that it evaluates by kernel
reduction. -/
def ratAbs (q : ℚ) : ℚ := if q < 0 then -q else q

/-- Modelled from the spec: per-point SMAPE term,
`|actual − predicted| / ((|actual| + |predicted|) / 2)`; when both actual
and predicted are exactly zero the point contributes zero error instead of
evaluating the zero denominator (spec section 4.2, missing MetricComputer
component). -/
def smapePoint (a p : ℚ) : ℚ :=
  if a = 0 ∧ p = 0 then 0 else ratAbs (a - p) / ((ratAbs a + ratAbs p) / 2)

/-- Modelled from the spec: per-series SMAPE — the per-point terms
averaged over all aligned points of the series, expressed as a percentage
(spec section 4.2, missing MetricComputer component). -/
def smapeSeries (pairs : List (ℚ × ℚ)) : ℚ :=
  100 * ((pairs.map (fun q => smapePoint q.1 q.2)).sum / pairs.length)

/-- Mean of a list of rationals (zero for the empty list). -/
def mean (l : List ℚ) : ℚ := l.sum / l.length

/-- Modelled from the spec: `abs_bias` is the mean of the signed residual
with its absolute value taken after averaging, not before (spec
sections 4.2 and 4.3, missing ResidualDiagnostics component). -/
def absBias (l : List ℚ) : ℚ := ratAbs (mean l)

/-- Central moment of order `k` of a list of rationals. -/
def centralMoment (l : List ℚ) (k : Nat) : ℚ :=
  mean (l.map (fun x => (x - mean l) ^ k))

/-- Modelled from the spec: the normality test statistic, a moment-based
Jarque-Bera statistic (the spec leaves the exact test open, naming
Jarque-Bera as the design intent; spec sections 4.3 and 9). Written with
squared skewness and squared excess kurtosis so it is exact over ℚ. -/
def jbStat (l : List ℚ) : ℚ :=
  (l.length : ℚ) / 6 *
    ((centralMoment l 3) ^ 2 / (centralMoment l 2) ^ 3 +
      ((centralMoment l 4) / (centralMoment l 2) ^ 2 - 3) ^ 2 / 4)

/-- Ascending comparison on metric records, by metric value. -/
def ascRel (a b : SeriesId × ℚ) : Prop := a.2 ≤ b.2

/-- Descending comparison on metric records, by metric value. -/
def descRel (a b : SeriesId × ℚ) : Prop := b.2 ≤ a.2

instance : DecidableRel ascRel := fun a b => inferInstanceAs (Decidable (a.2 ≤ b.2))

instance : DecidableRel descRel := fun a b => inferInstanceAs (Decidable (b.2 ≤ a.2))

instance : IsTotal (SeriesId × ℚ) ascRel := ⟨fun a b => le_total a.2 b.2⟩

instance : IsTotal (SeriesId × ℚ) descRel := ⟨fun a b => le_total b.2 a.2⟩

instance : IsTrans (SeriesId × ℚ) ascRel := ⟨fun _ _ _ h h' => le_trans h h'⟩

instance : IsTrans (SeriesId × ℚ) descRel := ⟨fun _ _ _ h h' => le_trans h' h⟩

/-- Strict ascending comparison on metric records, by metric value. -/
def strictAsc (a b : SeriesId × ℚ) : Prop := a.2 < b.2

instance : IsAntisymm (SeriesId × ℚ) strictAsc :=
  ⟨fun _ _ h h' => absurd h (lt_asymm h')⟩

/-- Modelled from the spec: the RankingEngine stably sorts a per-series
metric table ascending or descending; the 1-based rank position of a
record is its position in the returned sequence (spec section 4.4,
missing RankingEngine component). Insertion sort preserves the
first-seen order among equal metric values. -/
def rank (records : List (SeriesId × ℚ)) (descending : Bool) :
    List (SeriesId × ℚ) :=
  if descending then records.insertionSort descRel
  else records.insertionSort ascRel

/-- Modelled from the spec: `rank_point_forecasts` — align the actual and
predicted panels, score each aligned series by SMAPE, and rank the
metric table (spec sections 4.1, 4.2, 4.4; missing
functime.evaluation component called by the notebook). -/
def rankPointForecasts (actual pred : Panel) (descending : Bool) :
    Except String (List (SeriesId × ℚ)) :=
  match align actual pred with
  | Except.error e => Except.error e
  | Except.ok aligned =>
    Except.ok (rank (aligned.map (fun r => (r.1, smapeSeries r.2))) descending)

/-- Modelled from the spec: all values a panel holds for one series, in
panel order (used for residual sequences and training windows). -/
def valuesOf : Panel → SeriesId → List ℚ
  | [], _ => []
  | o :: p, sid =>
    if o.sid = sid then o.value :: valuesOf p sid else valuesOf p sid

/-- Modelled from the spec: `rank_residuals` with sort key `abs_bias` —
one metric record per series, the absolute value of the mean signed
residual, ranked (spec section 4.3; missing functime.evaluation
component called by the notebook). -/
def rankResiduals (p : Panel) (descending : Bool) : List (SeriesId × ℚ) :=
  rank ((seriesIds p).map (fun sid => (sid, absBias (valuesOf p sid)))) descending

/-- Modelled from the spec: `rank_residuals` with sort key `normality` —
series whose residual sequence is shorter than the minimum-sample floor
are excluded from the ranked output and reported in a warning list;
the remaining series are scored by the normality statistic and ranked
(spec sections 4.3 and 7; missing functime.evaluation component). -/
def rankResidualsNormality (p : Panel) (minSample : Nat) (descending : Bool) :
    List (SeriesId × ℚ) × List SeriesId :=
  let sids := seriesIds p
  let kept := sids.filter (fun sid => minSample ≤ (valuesOf p sid).length)
  let warn := sids.filter (fun sid => (valuesOf p sid).length < minSample)
  (rank (kept.map (fun sid => (sid, jbStat (valuesOf p sid)))) descending, warn)

/-- Modelled from the spec: the per-series FVA delta — the benchmark
metric minus the candidate metric, `none` when the series is not
alignable against both prediction panels (spec section 4.5, missing
ComparativeAnalyzer component). -/
def fvaDelta (actual cand bench : Panel) (sid : SeriesId) : Option ℚ :=
  match alignSeries actual cand sid, alignSeries actual bench sid with
  | c :: cs, b :: bs => some (smapeSeries (b :: bs) - smapeSeries (c :: cs))
  | _, _ => none

/-- Modelled from the spec: `forecast_value_add(actual, candidate_pred,
benchmark_pred)` reports `benchmark_metric − candidate_metric` per
series; a series missing from either prediction panel is excluded from
the comparison (spec section 4.5, missing ComparativeAnalyzer component
behind the notebook function `plot_fva`). -/
def forecastValueAdd (actual cand bench : Panel) : List (SeriesId × ℚ) :=
  keyed (fvaDelta actual cand bench) (seriesIds cand)

/-- Population variance of a list of rationals. -/
def variance (l : List ℚ) : ℚ := centralMoment l 2

/-- Standard deviation, the square root of the variance. -/
noncomputable def stddev (l : List ℚ) : ℝ := Real.sqrt (variance l : ℝ)

/-- Modelled from the spec: coefficient of variation,
`stddev(train_actual) / mean(train_actual)` per series over the training
window (spec section 4.5). -/
noncomputable def cv (l : List ℚ) : ℝ := stddev l / (mean l : ℝ)

/-- Series of the given list with a nonempty alignment of the test
prediction panel against the test actual panel. -/
def alignableFilter (test pred : Panel) : List SeriesId → List SeriesId
  | [] => []
  | s :: rest =>
    match alignSeries test pred s with
    | [] => alignableFilter test pred rest
    | _ :: _ => s :: alignableFilter test pred rest

/-- Modelled from the spec: the series eligible for the comet analysis —
those of the test prediction panel with a nonempty alignment against the
test actual panel (spec sections 4.1 and 4.5). -/
def cometEligible (test pred : Panel) : List SeriesId :=
  alignableFilter test pred (seriesIds pred)

/-- Series of the given list whose training-window mean is nonzero (the
comet kept set, first component) and, separately, the zero-mean series
(the comet warning set, second component). -/
def cometSplit (train : Panel) : List SeriesId → List SeriesId × List SeriesId
  | [] => ([], [])
  | s :: rest =>
    let p := cometSplit train rest
    if mean (valuesOf train s) = 0 then (p.1, s :: p.2) else (s :: p.1, p.2)

/-- Modelled from the spec: `comet_coordinates(train_actual, test_actual,
test_pred)` — per series, the coefficient of variation of the training
window paired with the out-of-sample SMAPE; a series whose training mean
is exactly zero is excluded from the output and reported in a warning
list instead of dividing by zero (spec section 4.5, missing
ComparativeAnalyzer component behind the notebook function `plot_comet`). -/
noncomputable def cometCoordinates (train test pred : Panel) :
    List (SeriesId × ℝ × ℚ) × List SeriesId :=
  let split := cometSplit train (cometEligible test pred)
  (split.1.map
      (fun s => (s, cv (valuesOf train s), smapeSeries (alignSeries test pred s))),
    split.2)

/-- Actual panel of concrete scenario 1 of the spec: series "X" with values
[10, 20] and series "Y" with values [5, 5]. -/
def scenario1Actual : Panel :=
  [⟨"X", 1, 10⟩, ⟨"X", 2, 20⟩, ⟨"Y", 1, 5⟩, ⟨"Y", 2, 5⟩]

/-- Predicted panel of concrete scenario 1 of the spec: series "X" with
values [10, 20] and series "Y" with values [10, 0]. -/
def scenario1Pred : Panel :=
  [⟨"X", 1, 10⟩, ⟨"X", 2, 20⟩, ⟨"Y", 1, 10⟩, ⟨"Y", 2, 0⟩]

/-- Residual panel of concrete scenario 2 of the spec: series "Z" with the
residual sequence [1, -1, 1, -1, 1, -1, 1, -1]. -/
def scenario2Resids : Panel :=
  [⟨"Z", 1, 1⟩, ⟨"Z", 2, -1⟩, ⟨"Z", 3, 1⟩, ⟨"Z", 4, -1⟩,
    ⟨"Z", 5, 1⟩, ⟨"Z", 6, -1⟩, ⟨"Z", 7, 1⟩, ⟨"Z", 8, -1⟩]

/-- Actual panel of a partial-overlap alignment scenario: only series "A"
at timestamp 1 is present. -/
def overlapActual : Panel := [⟨"A", 1, 1⟩]

/-- Predicted panel of a partial-overlap alignment scenario: series "A"
overlaps the actual panel at timestamp 1, series "B" has no overlapping
timestamp. -/
def overlapPred : Panel := [⟨"A", 1, 2⟩, ⟨"B", 9, 3⟩]

/-- Actual panel of an FVA scenario with one series "S". -/
def fvaActual : Panel := [⟨"S", 1, 10⟩]

/-- Candidate prediction panel of the FVA scenario: exact forecast. -/
def fvaCand : Panel := [⟨"S", 1, 10⟩]

/-- Benchmark prediction panel of the FVA scenario: forecast of zero. -/
def fvaBench : Panel := [⟨"S", 1, 0⟩]

/-- Training panel of concrete scenario 3 of the spec: series "C" has
constant training values with nonzero mean, series "D" has training mean
exactly zero. -/
def cometTrain : Panel :=
  [⟨"C", 1, 3⟩, ⟨"C", 2, 3⟩, ⟨"D", 1, 1⟩, ⟨"D", 2, -1⟩]

/-- Test actual panel of concrete scenario 3 of the spec. -/
def cometTest : Panel := [⟨"C", 3, 4⟩, ⟨"D", 3, 5⟩]

/-- Test prediction panel of concrete scenario 3 of the spec. -/
def cometPred : Panel := [⟨"C", 3, 4⟩, ⟨"D", 3, 5⟩]

/-! ### Helper lemmas about the embedded operations. -/

/-- ratAbs is nonnegative. -/
theorem ratAbs_nonneg (q : ℚ) : 0 ≤ ratAbs q := by
  unfold ratAbs; split <;> linarith

/-- ratAbs vanishes exactly on zero. -/
theorem ratAbs_eq_zero_iff (q : ℚ) : ratAbs q = 0 ↔ q = 0 := by
  unfold ratAbs; split <;> constructor <;> intro h <;> linarith

/-- firstDedup preserves membership. -/
theorem mem_firstDedup (l : List SeriesId) (s : SeriesId) :
    s ∈ firstDedup l ↔ s ∈ l := by
  induction l using firstDedup.induct with
  | case1 => simp [firstDedup]
  | case2 a rest ih =>
    rw [firstDedup]
    by_cases h : s = a
    · subst h; simp
    · simp only [List.mem_cons, ih, List.mem_filter]
      constructor
      · rintro (rfl | ⟨hm, _⟩)
        · exact Or.inl rfl
        · exact Or.inr hm
      · rintro (rfl | hm)
        · exact Or.inl rfl
        · exact Or.inr ⟨hm, by simpa using h⟩

/-- firstDedup produces a duplicate-free list. -/
theorem nodup_firstDedup (l : List SeriesId) : (firstDedup l).Nodup := by
  induction l using firstDedup.induct with
  | case1 => simp [firstDedup]
  | case2 a rest ih =>
    rw [firstDedup]
    refine List.nodup_cons.mpr ⟨?_, ih⟩
    intro hmem
    rcases (mem_firstDedup _ _).mp hmem with hm
    rcases List.mem_filter.mp hm with ⟨_, hne⟩
    simp at hne

/-- The series identifiers of a panel are duplicate-free. -/
theorem nodup_seriesIds (p : Panel) : (seriesIds p).Nodup :=
  nodup_firstDedup _

/-- keyed is empty exactly when the generator yields nothing on any key. -/
theorem keyed_eq_nil_iff {β : Type} (g : SeriesId → Option β) (l : List SeriesId) :
    keyed g l = [] ↔ ∀ s ∈ l, g s = none := by
  induction l with
  | nil => simp [keyed]
  | cons a rest ih =>
    simp only [keyed, List.filterMap_cons] at ih ⊢
    cases hg : g a with
    | none => simp only [Option.map_none']; rw [ih]; simp [hg]
    | some b => simp [hg]

/-- Membership in a keyed association list. -/
theorem mem_keyed {β : Type} (g : SeriesId → Option β) (l : List SeriesId)
    (s : SeriesId) (b : β) :
    (s, b) ∈ keyed g l ↔ s ∈ l ∧ g s = some b := by
  induction l with
  | nil => simp [keyed]
  | cons a rest ih =>
    simp only [keyed, List.filterMap_cons] at ih ⊢
    cases hg : g a with
    | none =>
      simp only [hg, Option.map_none']
      rw [ih]
      constructor
      · rintro ⟨hm, hgs⟩
        exact ⟨List.mem_cons_of_mem a hm, hgs⟩
      · rintro ⟨hma, hgs⟩
        rcases List.mem_cons.mp hma with rfl | hm
        · rw [hg] at hgs; cases hgs
        · exact ⟨hm, hgs⟩
    | some c =>
      simp only [hg, Option.map_some', List.mem_cons]
      rw [ih]
      constructor
      · rintro (heq | ⟨hm, hgs⟩)
        · rw [Prod.mk.injEq] at heq
          obtain ⟨rfl, rfl⟩ := heq
          exact ⟨Or.inl rfl, hg⟩
        · exact ⟨Or.inr hm, hgs⟩
      · rintro ⟨ha | hm, hgs⟩
        · subst ha
          rw [hg] at hgs
          injection hgs with hbc
          subst hbc
          exact Or.inl rfl
        · exact Or.inr ⟨hm, hgs⟩

/-- The keys of a keyed association list form a sublist of the key list. -/
theorem map_fst_keyed_sublist {β : Type} (g : SeriesId → Option β)
    (l : List SeriesId) : List.Sublist ((keyed g l).map Prod.fst) l := by
  induction l with
  | nil => simp [keyed]
  | cons a rest ih =>
    simp only [keyed, List.filterMap_cons] at ih ⊢
    cases hg : g a with
    | none =>
      simp only [hg, Option.map_none']
      exact ih.cons a
    | some b =>
      simp only [hg, Option.map_some', List.map_cons]
      exact ih.cons₂ a

/-- A key appears among the keys of a keyed association list exactly when
the generator yields a value on it. -/
theorem mem_map_fst_keyed {β : Type} (g : SeriesId → Option β)
    (l : List SeriesId) (s : SeriesId) :
    s ∈ (keyed g l).map Prod.fst ↔ s ∈ l ∧ ∃ b, g s = some b := by
  constructor
  · intro h
    rcases List.mem_map.mp h with ⟨⟨s', b⟩, hm, hfst⟩
    cases hfst
    rcases (mem_keyed g l _ b).mp hm with ⟨hl, hg⟩
    exact ⟨hl, b, hg⟩
  · rintro ⟨hl, b, hg⟩
    exact List.mem_map.mpr ⟨(s, b), (mem_keyed g l s b).mpr ⟨hl, hg⟩, rfl⟩

/-- Looking a key up in a keyed association list evaluates the generator
when the key occurs in the key list. -/
theorem findVal_keyed {β : Type} (g : SeriesId → Option β) (l : List SeriesId)
    (s : SeriesId) :
    findVal (keyed g l) s = if s ∈ l then g s else none := by
  induction l with
  | nil => simp [keyed, findVal]
  | cons a rest ih =>
    simp only [keyed, List.filterMap_cons] at ih ⊢
    cases hg : g a with
    | none =>
      simp only [hg, Option.map_none']
      rw [ih]
      by_cases hs : s = a
      · subst hs
        rw [if_pos (List.mem_cons_self s rest)]
        by_cases hm : s ∈ rest
        · simp [hm]
        · simp [hm, hg]
      · simp [List.mem_cons, hs]
    | some c =>
      simp only [hg, Option.map_some']
      by_cases hs : a = s
      · subst hs
        rw [findVal, if_pos rfl, if_pos (List.mem_cons_self a rest), hg]
      · rw [findVal, if_neg hs, ih]
        have : ¬s = a := fun h => hs h.symm
        simp [List.mem_cons, this]

/-- alignPairs is none exactly when the aligned pair list is empty. -/
theorem alignPairs_eq_none_iff (actual pred : Panel) (sid : SeriesId) :
    alignPairs actual pred sid = none ↔ alignSeries actual pred sid = [] := by
  unfold alignPairs
  cases alignSeries actual pred sid <;> simp

/-- alignPairs yields exactly the aligned pair list when it is nonempty. -/
theorem alignPairs_eq_some_iff (actual pred : Panel) (sid : SeriesId)
    (ps : List (ℚ × ℚ)) :
    alignPairs actual pred sid = some ps ↔
      alignSeries actual pred sid = ps ∧ ps ≠ [] := by
  unfold alignPairs
  cases h : alignSeries actual pred sid with
  | nil => simp
  | cons q rest =>
    constructor
    · intro hs
      injection hs with hs
      exact ⟨hs, by simp [← hs]⟩
    · rintro ⟨rfl, _⟩
      rfl

/-- A series with a nonempty alignment occurs in the predicted panel. -/
theorem alignSeries_ne_nil_mem (actual : Panel) (sid : SeriesId) :
    ∀ pred : Panel, alignSeries actual pred sid ≠ [] → sid ∈ seriesIds pred := by
  intro pred
  simp only [seriesIds]
  rw [mem_firstDedup]
  induction pred with
  | nil => intro h; simp [alignSeries] at h
  | cons o rest ih =>
    intro h
    rw [alignSeries] at h
    by_cases ho : o.sid = sid
    · simp [List.map_cons, ho]
    · rw [if_neg ho] at h
      simp only [List.map_cons, List.mem_cons]
      exact Or.inr (ih h)

/-- rank returns a permutation of its input metric table. -/
theorem rank_perm (records : List (SeriesId × ℚ)) (descending : Bool) :
    (rank records descending).Perm records := by
  cases descending <;> simp only [rank, Bool.false_eq_true, if_false, if_true] <;>
    exact List.perm_insertionSort _ _

/-- rank preserves membership. -/
theorem mem_rank (x : SeriesId × ℚ) (records : List (SeriesId × ℚ))
    (descending : Bool) : x ∈ rank records descending ↔ x ∈ records :=
  (rank_perm records descending).mem_iff

/-- Ascending rank output is sorted by the ascending comparison. -/
theorem rank_sorted_asc (records : List (SeriesId × ℚ)) :
    (rank records false).Sorted ascRel := by
  simp only [rank, Bool.false_eq_true, if_false]
  exact List.sorted_insertionSort ascRel records

/-- Descending rank output is sorted by the descending comparison. -/
theorem rank_sorted_desc (records : List (SeriesId × ℚ)) :
    (rank records true).Sorted descRel := by
  simp only [rank, if_true]
  exact List.sorted_insertionSort descRel records

/-- Sum of a constant list. -/
theorem sum_constant (l : List ℚ) (c : ℚ) (h : ∀ x ∈ l, x = c) :
    l.sum = c * l.length := by
  induction l with
  | nil => simp
  | cons a rest ih =>
    have ha : a = c := h a (List.mem_cons_self a rest)
    have hr : rest.sum = c * rest.length :=
      ih (fun x hx => h x (List.mem_cons_of_mem a hx))
    rw [List.sum_cons, ha, hr, List.length_cons]
    push_cast
    ring

/-- Mean of a nonempty constant list. -/
theorem mean_constant (l : List ℚ) (c : ℚ) (h : ∀ x ∈ l, x = c)
    (hne : l ≠ []) : mean l = c := by
  have hlen : (l.length : ℚ) ≠ 0 := by
    have : 0 < l.length := List.length_pos.mpr hne
    exact_mod_cast Nat.pos_iff_ne_zero.mp this
  rw [mean, sum_constant l c h, mul_div_assoc, div_self hlen, mul_one]

/-- Variance of a constant list vanishes. -/
theorem variance_constant (l : List ℚ) (c : ℚ) (h : ∀ x ∈ l, x = c)
    (hne : l ≠ []) : variance l = 0 := by
  have hm : mean l = c := mean_constant l c h hne
  have hmap : l.map (fun x => (x - mean l) ^ 2) = l.map (fun _ => 0) := by
    apply List.map_congr_left
    intro x hx
    rw [h x hx, hm]
    ring
  rw [variance, centralMoment, hmap]
  have hz : (l.map (fun _ => (0 : ℚ))).sum = 0 :=
    List.sum_eq_zero (fun x hx => by rcases List.mem_map.mp hx with ⟨y, _, h⟩; exact h.symm)
  rw [mean, hz, zero_div]

/-- Coefficient of variation of a constant series with nonzero mean is
exactly zero. -/
theorem cv_of_constant (l : List ℚ) (c : ℚ) (h : ∀ x ∈ l, x = c)
    (hm : mean l ≠ 0) : cv l = 0 := by
  have hne : l ≠ [] := by
    rintro rfl
    exact hm (by simp [mean])
  rw [cv, stddev, variance_constant l c h hne]
  simp

/-- Membership in the two components of cometSplit. -/
theorem mem_cometSplit (train : Panel) (l : List SeriesId) (s : SeriesId) :
    (s ∈ (cometSplit train l).1 ↔ s ∈ l ∧ mean (valuesOf train s) ≠ 0)
      ∧ (s ∈ (cometSplit train l).2 ↔ s ∈ l ∧ mean (valuesOf train s) = 0) := by
  induction l with
  | nil => simp [cometSplit]
  | cons a rest ih =>
    rw [cometSplit]
    by_cases h : mean (valuesOf train a) = 0
    · rw [if_pos h]
      constructor
      · rw [ih.1]
        constructor
        · rintro ⟨hm, hz⟩
          exact ⟨List.mem_cons_of_mem a hm, hz⟩
        · rintro ⟨hma, hz⟩
          rcases List.mem_cons.mp hma with rfl | hm
          · exact absurd h hz
          · exact ⟨hm, hz⟩
      · simp only [List.mem_cons, ih.2]
        constructor
        · rintro (rfl | ⟨hm, hz⟩)
          · exact ⟨Or.inl rfl, h⟩
          · exact ⟨Or.inr hm, hz⟩
        · rintro ⟨rfl | hm, hz⟩
          · exact Or.inl rfl
          · exact Or.inr ⟨hm, hz⟩
    · rw [if_neg h]
      constructor
      · simp only [List.mem_cons, ih.1]
        constructor
        · rintro (rfl | ⟨hm, hz⟩)
          · exact ⟨Or.inl rfl, h⟩
          · exact ⟨Or.inr hm, hz⟩
        · rintro ⟨rfl | hm, hz⟩
          · exact Or.inl rfl
          · exact Or.inr ⟨hm, hz⟩
      · rw [ih.2]
        constructor
        · rintro ⟨hm, hz⟩
          exact ⟨List.mem_cons_of_mem a hm, hz⟩
        · rintro ⟨hma, hz⟩
          rcases List.mem_cons.mp hma with rfl | hm
          · exact absurd hz h
          · exact ⟨hm, hz⟩

/-- Membership in the alignable filter. -/
theorem mem_alignableFilter (test pred : Panel) (l : List SeriesId)
    (s : SeriesId) :
    s ∈ alignableFilter test pred l ↔ s ∈ l ∧ alignSeries test pred s ≠ [] := by
  induction l with
  | nil => simp [alignableFilter]
  | cons a rest ih =>
    rw [alignableFilter]
    cases h : alignSeries test pred a with
    | nil =>
      rw [ih]
      constructor
      · rintro ⟨hm, hne⟩
        exact ⟨List.mem_cons_of_mem a hm, hne⟩
      · rintro ⟨hma, hne⟩
        rcases List.mem_cons.mp hma with rfl | hm
        · exact absurd h hne
        · exact ⟨hm, hne⟩
    | cons q qs =>
      simp only [List.mem_cons, ih]
      constructor
      · rintro (rfl | ⟨hm, hne⟩)
        · exact ⟨Or.inl rfl, by simp [h]⟩
        · exact ⟨Or.inr hm, hne⟩
      · rintro ⟨rfl | hm, hne⟩
        · exact Or.inl rfl
        · exact Or.inr ⟨hm, hne⟩

/-! ### Claim theorems. -/

/-- C2: the alignment operation fails with the "empty alignment" error if
and only if no series of the predicted panel has any overlapping
timestamps with the actual panel; when the call succeeds, a series
appears in the result exactly when it is in the predicted panel and has a
nonempty overlap, so zero-overlap series are excluded while the rest are
processed. -/
theorem align_empty_iff (actual pred : Panel) :
    (align actual pred = Except.error "empty alignment" ↔
      ∀ sid ∈ seriesIds pred, alignSeries actual pred sid = [])
    ∧ ∀ res, align actual pred = Except.ok res →
        ∀ sid, sid ∈ res.map Prod.fst ↔
          sid ∈ seriesIds pred ∧ alignSeries actual pred sid ≠ [] := by
  constructor
  · rw [align]
    cases hk : keyed (alignPairs actual pred) (seriesIds pred) with
    | nil =>
      constructor
      · intro _ sid hs
        exact (alignPairs_eq_none_iff actual pred sid).mp
          ((keyed_eq_nil_iff _ _).mp hk sid hs)
      · intro _
        rfl
    | cons r rest =>
      constructor
      · intro h
        exact Except.noConfusion h
      · intro hall
        exfalso
        have hr : (r.1, r.2) ∈ keyed (alignPairs actual pred) (seriesIds pred) := by
          rw [Prod.mk.eta, hk]
          exact List.mem_cons_self _ _
        obtain ⟨hmem, hsome⟩ := (mem_keyed _ _ r.1 r.2).mp hr
        have hnil : alignPairs actual pred r.1 = none :=
          (alignPairs_eq_none_iff actual pred r.1).mpr (hall r.1 hmem)
        rw [hnil] at hsome
        exact Option.noConfusion hsome
  · intro res hres sid
    rw [align] at hres
    split at hres
    · exact absurd hres (by intro h; exact Except.noConfusion h)
    · next r rest heq =>
      injection hres with hres
      rw [← hres, ← heq, mem_map_fst_keyed]
      have hiff : (∃ b, alignPairs actual pred sid = some b) ↔
          alignSeries actual pred sid ≠ [] := by
        rw [alignPairs]
        cases alignSeries actual pred sid <;> simp
      rw [hiff]

/-- Witness for C2: in the partial-overlap scenario the call succeeds,
and the zero-overlap series "B" is excluded from the result while being
present in the predicted panel. -/
theorem align_empty_iff_witness :
    align overlapActual overlapPred = Except.ok [("A", [((1 : ℚ), (2 : ℚ))])]
    ∧ ("B" ∈ ([("A", [((1 : ℚ), (2 : ℚ))])].map Prod.fst) ↔
        "B" ∈ seriesIds overlapPred ∧
          alignSeries overlapActual overlapPred "B" ≠ []) := by
  have hs : seriesIds overlapPred = ["A", "B"] := by
    simp [seriesIds, overlapPred, firstDedup]
  have hA : alignSeries overlapActual overlapPred "A" = [(1, 2)] := by
    simp [alignSeries, valueAt, overlapActual, overlapPred]
  have hB : alignSeries overlapActual overlapPred "B" = [] := by
    simp [alignSeries, valueAt, overlapActual, overlapPred]
  have hok : align overlapActual overlapPred =
      Except.ok [("A", [((1 : ℚ), (2 : ℚ))])] := by
    rw [align, hs]
    simp [keyed, List.filterMap_cons, alignPairs, hA, hB]
  exact ⟨hok, (align_empty_iff overlapActual overlapPred).2 _ hok "B"⟩

/-- C3: forecast value add is antisymmetric in the two prediction panels:
whenever the comparison of candidate A against benchmark B reports delta
d for a series, the comparison of B against A reports -d for it. -/
theorem fva_sign_symmetry (actual A B : Panel) (sid : SeriesId) (d : ℚ)
    (h : findVal (forecastValueAdd actual A B) sid = some d) :
    findVal (forecastValueAdd actual B A) sid = some (-d) := by
  rw [forecastValueAdd, findVal_keyed] at h
  by_cases hm : sid ∈ seriesIds A
  case neg =>
    rw [if_neg hm] at h
    exact Option.noConfusion h
  rw [if_pos hm] at h
  rw [fvaDelta] at h
  split at h
  case _ c cs b bs heqA heqB =>
    injection h with hd
    have hmB : sid ∈ seriesIds B :=
      alignSeries_ne_nil_mem actual sid B (by rw [heqB]; simp)
    rw [forecastValueAdd, findVal_keyed, if_pos hmB, fvaDelta, heqA, heqB]
    rw [← hd, neg_sub]
  case _ =>
    exact absurd h (by intro hh; exact Option.noConfusion hh)

/-- Witness for C3: in the one-series FVA scenario the candidate-versus-
benchmark delta is 200 and the swapped comparison reports -200. -/
theorem fva_sign_symmetry_witness :
    findVal (forecastValueAdd fvaActual fvaCand fvaBench) "S" = some 200
    ∧ findVal (forecastValueAdd fvaActual fvaBench fvaCand) "S" = some (-200) := by
  have hs : seriesIds fvaCand = ["S"] := by
    simp [seriesIds, fvaCand, firstDedup]
  have hc : alignSeries fvaActual fvaCand "S" = [(10, 10)] := by
    simp [alignSeries, valueAt, fvaActual, fvaCand]
  have hb : alignSeries fvaActual fvaBench "S" = [(10, 0)] := by
    simp [alignSeries, valueAt, fvaActual, fvaBench]
  have hsc : smapeSeries [((10 : ℚ), (10 : ℚ))] = 0 := by
    norm_num [smapeSeries, smapePoint, ratAbs]
  have hsb : smapeSeries [((10 : ℚ), (0 : ℚ))] = 200 := by
    norm_num [smapeSeries, smapePoint, ratAbs]
  have h : findVal (forecastValueAdd fvaActual fvaCand fvaBench) "S" =
      some 200 := by
    rw [forecastValueAdd, hs]
    simp only [keyed, List.filterMap_cons, List.filterMap_nil, fvaDelta, hc, hb]
    norm_num [findVal, hsc, hsb]
  exact ⟨h, fva_sign_symmetry fvaActual fvaCand fvaBench "S" 200 h⟩

/-- C4: at a point where the SMAPE denominator is zero (equivalently both
the actual and the predicted value are zero) the per-point error is zero
rather than an undefined division, and such a point contributes nothing
to the total error of a series, so the per-series SMAPE stays a well-defined
rational number. -/
theorem smape_zero_denominator_policy (a p : ℚ)
    (h : (ratAbs a + ratAbs p) / 2 = 0) :
    smapePoint a p = 0
    ∧ ∀ pre post : List (ℚ × ℚ),
        ((pre ++ (0, 0) :: post).map (fun q => smapePoint q.1 q.2)).sum =
          ((pre ++ post).map (fun q => smapePoint q.1 q.2)).sum := by
  have h0 : ratAbs a + ratAbs p = 0 := by
    rcases div_eq_zero_iff.mp h with h' | h'
    · exact h'
    · norm_num at h'
  have ha : a = 0 := (ratAbs_eq_zero_iff a).mp
    (le_antisymm (by linarith [ratAbs_nonneg p]) (ratAbs_nonneg a))
  have hp : p = 0 := (ratAbs_eq_zero_iff p).mp
    (le_antisymm (by linarith [ratAbs_nonneg a]) (ratAbs_nonneg p))
  have hzz : smapePoint 0 0 = 0 := by
    rw [smapePoint, if_pos ⟨rfl, rfl⟩]
  refine ⟨by rw [ha, hp, hzz], ?_⟩
  intro pre post
  simp [List.map_append, List.sum_append, List.sum_cons, hzz]

/-- Witness for C4: the zero denominator occurs at the point (0, 0), its
error is zero, and inserting it into a series leaves the error total
unchanged. -/
theorem smape_zero_denominator_policy_witness :
    (ratAbs 0 + ratAbs 0) / 2 = 0
    ∧ (smapePoint 0 0 = 0
      ∧ ∀ pre post : List (ℚ × ℚ),
          ((pre ++ (0, 0) :: post).map (fun q => smapePoint q.1 q.2)).sum =
            ((pre ++ post).map (fun q => smapePoint q.1 q.2)).sum) :=
  ⟨by norm_num [ratAbs], smape_zero_denominator_policy 0 0 (by norm_num [ratAbs])⟩

/-- C7: a series whose prediction equals the actual value at every
aligned point has SMAPE exactly zero, including when some of the equal
values are zero. -/
theorem smape_perfect_forecast (pairs : List (ℚ × ℚ))
    (h : ∀ q ∈ pairs, q.1 = q.2) : smapeSeries pairs = 0 := by
  have hz : (pairs.map (fun q => smapePoint q.1 q.2)).sum = 0 := by
    apply List.sum_eq_zero
    intro x hx
    rcases List.mem_map.mp hx with ⟨q, hq, rfl⟩
    have heq : q.1 = q.2 := h q hq
    by_cases h0 : q.1 = 0 ∧ q.2 = 0
    · rw [smapePoint, if_pos h0]
    · rw [smapePoint, if_neg h0, heq, sub_self]
      have habs : ratAbs 0 = 0 := by norm_num [ratAbs]
      rw [habs, zero_div]
  rw [smapeSeries, hz, zero_div, mul_zero]

/-- Witness for C7: a perfect two-point forecast, one of whose points is
the zero pair, has SMAPE zero. -/
theorem smape_perfect_forecast_witness :
    (∀ q ∈ [((3 : ℚ), (3 : ℚ)), (0, 0)], q.1 = q.2)
    ∧ smapeSeries [((3 : ℚ), (3 : ℚ)), (0, 0)] = 0 :=
  ⟨by norm_num, smape_perfect_forecast _ (by norm_num)⟩

/-- C5: on a metric table without ties in metric value, descending
ranking is the exact reverse of ascending ranking. -/
theorem rank_descending_reverse (m : List (SeriesId × ℚ))
    (h : (m.map Prod.snd).Pairwise (fun a b => a ≠ b)) :
    rank m true = (rank m false).reverse := by
  have hne : m.Pairwise (fun a b => a.2 ≠ b.2) := List.pairwise_map.mp h
  have p1 : (rank m false).Perm m := rank_perm m false
  have p2 : (rank m true).Perm m := rank_perm m true
  have hn1 : (rank m false).Pairwise (fun a b => a.2 ≠ b.2) :=
    (p1.pairwise_iff (fun hab => Ne.symm hab)).mpr hne
  have hn2 : (rank m true).Pairwise (fun a b => a.2 ≠ b.2) :=
    (p2.pairwise_iff (fun hab => Ne.symm hab)).mpr hne
  have s1 : (rank m false).Pairwise strictAsc :=
    ((rank_sorted_asc m).and hn1).imp (fun hab => lt_of_le_of_ne hab.1 hab.2)
  have s2 : ((rank m true).reverse).Pairwise strictAsc := by
    rw [List.pairwise_reverse]
    exact ((rank_sorted_desc m).and hn2).imp
      (fun hab => lt_of_le_of_ne hab.1 (Ne.symm hab.2))
  have hp : ((rank m true).reverse).Perm (rank m false) :=
    ((rank m true).reverse_perm.trans p2).trans p1.symm
  have heq : (rank m true).reverse = rank m false :=
    List.eq_of_perm_of_sorted hp s2 s1
  rw [← heq, List.reverse_reverse]

/-- Witness for C5: a two-row metric table with distinct values, ranked
both ways. -/
theorem rank_descending_reverse_witness :
    (([("A", (2 : ℚ)), ("B", 1)].map Prod.snd).Pairwise (fun a b => a ≠ b))
    ∧ rank [("A", (2 : ℚ)), ("B", 1)] true =
        (rank [("A", (2 : ℚ)), ("B", 1)] false).reverse :=
  ⟨by norm_num [List.pairwise_cons],
    rank_descending_reverse _ (by norm_num [List.pairwise_cons])⟩

/-- C6: the abs_bias record of every series is the absolute value of the
mean of its signed residuals (sign stripped after averaging), and on the
alternating residual sequence of scenario 2 the computed abs_bias is
exactly 0 — while the mean of the pointwise absolute residuals is 1,
showing the sign is not stripped before averaging. -/
theorem abs_bias_after_averaging (p : Panel) (d : Bool) (sid : SeriesId) :
    ((sid, ratAbs (mean (valuesOf p sid))) ∈ rankResiduals p d ↔
      sid ∈ seriesIds p)
    ∧ rankResiduals scenario2Resids false = [("Z", 0)]
    ∧ mean ((valuesOf scenario2Resids "Z").map ratAbs) = 1 := by
  have hv : valuesOf scenario2Resids "Z" = [1, -1, 1, -1, 1, -1, 1, -1] := by
    simp [valuesOf, scenario2Resids]
  refine ⟨?_, ?_, ?_⟩
  · rw [rankResiduals, mem_rank]
    constructor
    · intro hm
      rcases List.mem_map.mp hm with ⟨s, hs, heq⟩
      rw [Prod.mk.injEq] at heq
      obtain ⟨rfl, _⟩ := heq
      exact hs
    · intro hm
      exact List.mem_map.mpr ⟨sid, hm, rfl⟩
  · have hsz : seriesIds scenario2Resids = ["Z"] := by
      simp [seriesIds, scenario2Resids, firstDedup]
    have hb : absBias [(1 : ℚ), -1, 1, -1, 1, -1, 1, -1] = 0 := by
      norm_num [absBias, mean, ratAbs]
    rw [rankResiduals, hsz]
    simp [List.map_cons, hv, hb, rank, List.insertionSort, List.orderedInsert]
  · rw [hv]
    norm_num [mean, ratAbs]

/-- C8: in the normality diagnostic, a series appears in the ranked
output exactly when its residual sequence meets the minimum-sample floor,
and appears in the warning list exactly when it falls below the floor, so
short series are excluded with a warning while the remaining series are
still evaluated in the same call. -/
theorem normality_min_sample_policy (p : Panel) (n : Nat) (d : Bool)
    (sid : SeriesId) :
    (sid ∈ ((rankResidualsNormality p n d).1.map Prod.fst) ↔
      sid ∈ seriesIds p ∧ n ≤ (valuesOf p sid).length)
    ∧ (sid ∈ (rankResidualsNormality p n d).2 ↔
      sid ∈ seriesIds p ∧ (valuesOf p sid).length < n) := by
  constructor
  · simp only [rankResidualsNormality]
    rw [((rank_perm _ d).map Prod.fst).mem_iff]
    rw [List.map_map]
    have hcomp : ∀ l : List SeriesId,
        l.map (Prod.fst ∘ fun s => ((s, jbStat (valuesOf p s)) : SeriesId × ℚ)) = l := by
      intro l
      induction l with
      | nil => rfl
      | cons a r ih => simp only [List.map_cons, Function.comp_apply, ih]
    rw [hcomp, List.mem_filter]
    rw [decide_eq_true_eq]
  · simp only [rankResidualsNormality]
    rw [List.mem_filter]
    rw [decide_eq_true_eq]

/-- C9: in the comet analysis a series whose training-window mean is
exactly zero is excluded from the coordinate output (its identifier never
appears among the output keys, so no division by zero is performed for
it) and reported in the warning list, while an eligible series with
constant training values and nonzero mean is kept and its coefficient of
variation is exactly zero. -/
theorem comet_zero_mean_policy (train test pred : Panel) (sid : SeriesId) :
    (sid ∈ (cometCoordinates train test pred).2 ↔
      sid ∈ cometEligible test pred ∧ mean (valuesOf train sid) = 0)
    ∧ (sid ∈ ((cometCoordinates train test pred).1.map Prod.fst) ↔
      sid ∈ cometEligible test pred ∧ mean (valuesOf train sid) ≠ 0)
    ∧ ∀ c : ℚ, (∀ x ∈ valuesOf train sid, x = c) →
        mean (valuesOf train sid) ≠ 0 →
        sid ∈ cometEligible test pred →
        (sid, (0 : ℝ), smapeSeries (alignSeries test pred sid)) ∈
          (cometCoordinates train test pred).1 := by
  refine ⟨?_, ?_, ?_⟩
  · simp only [cometCoordinates]
    exact (mem_cometSplit train (cometEligible test pred) sid).2
  · simp only [cometCoordinates]
    have hfst : ∀ l : List SeriesId,
        (l.map (fun s => ((s, cv (valuesOf train s),
          smapeSeries (alignSeries test pred s)) : SeriesId × ℝ × ℚ))).map
            Prod.fst = l := by
      intro l
      induction l with
      | nil => rfl
      | cons a r ih => simp only [List.map_cons, ih]
    rw [hfst]
    exact (mem_cometSplit train (cometEligible test pred) sid).1
  · intro c hconst hmean helig
    simp only [cometCoordinates]
    have hk : sid ∈ (cometSplit train (cometEligible test pred)).1 :=
      (mem_cometSplit train _ sid).1.mpr ⟨helig, hmean⟩
    have hcv : cv (valuesOf train sid) = 0 := cv_of_constant _ c hconst hmean
    refine List.mem_map.mpr ⟨sid, hk, ?_⟩
    rw [hcv]

/-- Witness for C9: in the scenario-3 panels the zero-mean series "D" is
reported in the warning list and is absent from the coordinate output,
while the constant series "C" is kept with coefficient of variation
exactly zero. -/
theorem comet_zero_mean_policy_witness :
    "D" ∈ (cometCoordinates cometTrain cometTest cometPred).2
    ∧ "D" ∉ ((cometCoordinates cometTrain cometTest cometPred).1.map Prod.fst)
    ∧ ("C", (0 : ℝ), smapeSeries (alignSeries cometTest cometPred "C")) ∈
        (cometCoordinates cometTrain cometTest cometPred).1 := by
  have hsp : seriesIds cometPred = ["C", "D"] := by
    simp [seriesIds, cometPred, firstDedup]
  have hac : alignSeries cometTest cometPred "C" = [(4, 4)] := by
    simp [alignSeries, valueAt, cometTest, cometPred]
  have had : alignSeries cometTest cometPred "D" = [(5, 5)] := by
    simp [alignSeries, valueAt, cometTest, cometPred]
  have hvC : valuesOf cometTrain "C" = [3, 3] := by
    simp [valuesOf, cometTrain]
  have hvD : valuesOf cometTrain "D" = [1, -1] := by
    simp [valuesOf, cometTrain]
  have heligC : "C" ∈ cometEligible cometTest cometPred := by
    rw [cometEligible]
    exact (mem_alignableFilter cometTest cometPred _ "C").mpr
      ⟨by rw [hsp]; simp, by rw [hac]; simp⟩
  have heligD : "D" ∈ cometEligible cometTest cometPred := by
    rw [cometEligible]
    exact (mem_alignableFilter cometTest cometPred _ "D").mpr
      ⟨by rw [hsp]; simp, by rw [had]; simp⟩
  have hmD : mean (valuesOf cometTrain "D") = 0 := by
    rw [hvD]
    norm_num [mean]
  refine ⟨?_, ?_, ?_⟩
  · exact (comet_zero_mean_policy cometTrain cometTest cometPred "D").1.mpr
      ⟨heligD, hmD⟩
  · intro hmem
    exact ((comet_zero_mean_policy cometTrain cometTest cometPred "D").2.1.mp
      hmem).2 hmD
  · refine (comet_zero_mean_policy cometTrain cometTest cometPred "C").2.2 3
      ?_ ?_ heligC
    · intro x hx
      rw [hvC] at hx
      rcases List.mem_cons.mp hx with rfl | hx
      · rfl
      rcases List.mem_cons.mp hx with rfl | hx
      · rfl
      · exact absurd hx (List.not_mem_nil x)
    · rw [hvC]
      norm_num [mean]

/-- C10: whenever rank_point_forecasts succeeds, its output carries
exactly one rank record per series identifier — the keys are
duplicate-free (hence the first k rows name k distinct series), and a
series appears exactly when it is alignable, its statistic pooled over
every matching observation of the prediction panel; likewise
rank_residuals returns exactly one record per series identifier of the
residual panel (the per-series statistic pooled over all of its rows,
splits included), its keys duplicate-free as well. -/
theorem rank_one_record_per_series (actual pred rp : Panel) (d : Bool)
    (k : Nat) (res : List (SeriesId × ℚ))
    (h : rankPointForecasts actual pred d = Except.ok res) :
    (((res.take k).map Prod.fst).Nodup
      ∧ ∀ sid, sid ∈ res.map Prod.fst ↔
          sid ∈ seriesIds pred ∧ alignSeries actual pred sid ≠ [])
    ∧ ((((rankResiduals rp d).take k).map Prod.fst).Nodup
      ∧ ∀ sid, sid ∈ (rankResiduals rp d).map Prod.fst ↔
          sid ∈ seriesIds rp) := by
  have hresidpart : (((rankResiduals rp d).take k).map Prod.fst).Nodup
      ∧ ∀ sid, sid ∈ (rankResiduals rp d).map Prod.fst ↔
          sid ∈ seriesIds rp := by
    have hcompr : ∀ l : List SeriesId,
        (l.map (fun s => ((s, absBias (valuesOf rp s)) : SeriesId × ℚ))).map
          Prod.fst = l := by
      intro l
      induction l with
      | nil => rfl
      | cons a r ih => simp only [List.map_cons, ih]
    have hperm : ((rankResiduals rp d).map Prod.fst).Perm (seriesIds rp) := by
      rw [rankResiduals]
      have hp := (rank_perm ((seriesIds rp).map
        (fun s => ((s, absBias (valuesOf rp s)) : SeriesId × ℚ))) d).map Prod.fst
      rw [hcompr] at hp
      exact hp
    constructor
    · have hnd : ((rankResiduals rp d).map Prod.fst).Nodup :=
        hperm.nodup_iff.mpr (nodup_seriesIds rp)
      rw [List.map_take]
      exact (List.take_sublist k _).nodup hnd
    · intro sid
      exact hperm.mem_iff
  refine ⟨?_, hresidpart⟩
  rw [rankPointForecasts] at h
  cases halign : align actual pred with
  | error e =>
    rw [halign] at h
    exact Except.noConfusion h
  | ok aligned =>
    rw [halign] at h
    injection h with h
    have hk : keyed (alignPairs actual pred) (seriesIds pred) = aligned := by
      rw [align] at halign
      split at halign
      · exact Except.noConfusion halign
      · next r rest heq =>
        injection halign with hh
        rw [heq, hh]
    have hcomp : ∀ l : List (SeriesId × List (ℚ × ℚ)),
        (l.map (fun r => ((r.1, smapeSeries r.2) : SeriesId × ℚ))).map Prod.fst =
          l.map Prod.fst := by
      intro l
      induction l with
      | nil => rfl
      | cons a r ih => simp only [List.map_cons, ih]
    have hmemiff : ∀ sid, sid ∈ res.map Prod.fst ↔ sid ∈ aligned.map Prod.fst := by
      intro sid
      rw [← h, ((rank_perm _ d).map Prod.fst).mem_iff, hcomp]
    have hnodup_aligned : (aligned.map Prod.fst).Nodup := by
      rw [← hk]
      exact (map_fst_keyed_sublist _ _).nodup (nodup_seriesIds pred)
    constructor
    · have hres : (res.map Prod.fst).Nodup := by
        rw [← h]
        have hperm := (rank_perm (aligned.map
          (fun r => ((r.1, smapeSeries r.2) : SeriesId × ℚ))) d).map Prod.fst
        rw [hperm.nodup_iff, hcomp]
        exact hnodup_aligned
      rw [List.map_take]
      exact (List.take_sublist k (res.map Prod.fst)).nodup hres
    · intro sid
      rw [hmemiff sid, ← hk, mem_map_fst_keyed]
      have hiff : (∃ b, alignPairs actual pred sid = some b) ↔
          alignSeries actual pred sid ≠ [] := by
        rw [alignPairs]
        cases alignSeries actual pred sid <;> simp
      rw [hiff]

/-- Evaluation helper: the aligned pairs of series "Y" in scenario 1. -/
theorem scenario1_alignY :
    alignSeries scenario1Actual scenario1Pred "Y" = [(5, 10), (5, 0)] := by
  simp [alignSeries, valueAt, scenario1Actual, scenario1Pred]

/-- Evaluation helper: the full ranked output of scenario 1 — SMAPE of
"X" is 0, SMAPE of "Y" is 400/3, and ascending ranking orders "X" before
"Y". -/
theorem scenario1_rank_eval :
    rankPointForecasts scenario1Actual scenario1Pred false =
      Except.ok [("X", 0), ("Y", 400 / 3)] := by
  have hs : seriesIds scenario1Pred = ["X", "Y"] := by
    simp [seriesIds, scenario1Pred, firstDedup]
  have hX : alignSeries scenario1Actual scenario1Pred "X" =
      [(10, 10), (20, 20)] := by
    simp [alignSeries, valueAt, scenario1Actual, scenario1Pred]
  have hsX : smapeSeries [((10 : ℚ), (10 : ℚ)), (20, 20)] = 0 := by
    norm_num [smapeSeries, smapePoint, ratAbs]
  have hsY : smapeSeries [((5 : ℚ), (10 : ℚ)), (5, 0)] = 400 / 3 := by
    norm_num [smapeSeries, smapePoint, ratAbs]
  norm_num [rankPointForecasts, align, hs, keyed, alignPairs, hX,
    scenario1_alignY, hsX, hsY, rank, List.insertionSort,
    List.orderedInsert, ascRel, List.filterMap_cons, List.filterMap_nil]

/-- C1 counterexample: per the per-point formula the spec itself gives the computed
SMAPE of series "Y" in scenario 1 is 400/3 (about 133.33), not the
claimed 100. -/
theorem smape_scenario_counterexample :
    smapeSeries (alignSeries scenario1Actual scenario1Pred "Y") = 400 / 3
    ∧ ((400 / 3 : ℚ) ≠ 100) := by
  rw [scenario1_alignY]
  norm_num [smapeSeries, smapePoint, ratAbs]

/-- C1 amended: in scenario 1 the computed SMAPE of "X" is 0, the
computed SMAPE of "Y" is 400/3 (not 100), and ranking ascending by SMAPE
still yields the order ["X", "Y"]. -/
theorem smape_scenario_amended :
    rankPointForecasts scenario1Actual scenario1Pred false =
      Except.ok [("X", 0), ("Y", 400 / 3)] :=
  scenario1_rank_eval

/-- Witness for C10: on the scenario-1 panels the call succeeds, the
ranked keys are duplicate-free, and exactly the two alignable series
appear; on the scenario-2 residual panel rank_residuals likewise yields
duplicate-free keys covering exactly its series. -/
theorem rank_one_record_per_series_witness :
    rankPointForecasts scenario1Actual scenario1Pred false =
      Except.ok [("X", 0), ("Y", 400 / 3)]
    ∧ (((([(("X" : SeriesId), (0 : ℚ)), ("Y", 400 / 3)].take 2).map
        Prod.fst).Nodup
      ∧ ∀ sid, sid ∈ [(("X" : SeriesId), (0 : ℚ)), ("Y", 400 / 3)].map
            Prod.fst ↔
          sid ∈ seriesIds scenario1Pred ∧
            alignSeries scenario1Actual scenario1Pred sid ≠ [])
      ∧ ((((rankResiduals scenario2Resids false).take 2).map Prod.fst).Nodup
        ∧ ∀ sid, sid ∈ (rankResiduals scenario2Resids false).map Prod.fst ↔
            sid ∈ seriesIds scenario2Resids)) :=
  ⟨scenario1_rank_eval,
    rank_one_record_per_series scenario1Actual scenario1Pred scenario2Resids
      false 2 _ scenario1_rank_eval⟩
